import Mathlib

/-!
A verification development for the author-search pipeline.

Part 1 embeds `scripts/1_fetch_data.py` (present in the repository):
`fetch_papers_by_category` and `fetch_arxiv_papers`.  The external arXiv
client's result iterator is modelled as a list of `Except` values: an
`Except.ok` is a yielded result record, an `Except.error` is an exception
raised by the iterator at that point (iteration stops there, and the
Python code catches the exception).

Part 2 models `scripts/2_build_profiles.py`, whose implementation is not
in the repository (only its test suite is); those definitions are marked
`Modelled from the spec:` and follow the specification's wording.
-/

namespace AuthorSearch

/-- A record yielded by the arXiv client iterator (`result` in the Python
loop): `entry_id`, `title`, optional `summary` attribute with an optional
`abstract` attribute as fallback, author names, the publication year and
ISO timestamp, categories. -/
structure ArxivResult where
  entry_id : String
  title : String
  summary : Option String
  abstract : Option String
  authors : List String
  published_year : Int
  published_iso : String
  categories : List String
  primary_category : String
deriving DecidableEq

/-- Python's `str.split` with a one-character separator, over the
character list: splitting an empty string yields one empty segment, and
each separator occurrence starts a new segment. -/
def splitChar (sep : Char) : List Char → List (List Char)
  | [] => [[]]
  | c :: rest =>
    match splitChar sep rest with
    | [] => if c = sep then [[], []] else [[c]]
    | h :: t => if c = sep then [] :: h :: t else (c :: h) :: t

/-- `result.entry_id.split('/')[-1]` -/
def ArxivResult.arxivId (r : ArxivResult) : String :=
  String.mk ((splitChar '/' r.entry_id.data).getLastD [])

/-- `result.summary if hasattr(result, 'summary') else getattr(result, 'abstract', '')` -/
def ArxivResult.abstractText (r : ArxivResult) : String :=
  match r.summary with
  | some s => s
  | none => r.abstract.getD ""

/-- The paper dictionary built inside `fetch_papers_by_category`. -/
structure Paper where
  arxiv_id : String
  title : String
  abstract : String
  authors : List String
  published : String
  categories : List String
  primary_category : String
deriving DecidableEq

/-- Construction of the paper dictionary from an iterator result. -/
def mkPaper (r : ArxivResult) : Paper :=
  { arxiv_id := r.arxivId
    title := r.title
    abstract := r.abstractText
    authors := r.authors
    published := r.published_iso
    categories := r.categories
    primary_category := r.primary_category }

/-- The `for result in client.results(search)` loop of
`fetch_papers_by_category`, with its `papers` accumulator and `seen_ids`
set.  An `Except.error` item is an exception raised by the iterator:
the `try`/`except` around the loop catches it (both
`arxiv.UnexpectedEmptyPageError` and the general `except Exception`
branch), so the papers collected so far are returned. -/
def fetchLoop (start_year : Int) :
    List (Except String ArxivResult) → List Paper → List String → List Paper
  | [], papers, _ => papers
  | Except.error _ :: _, papers, _ => papers
  | Except.ok r :: rest, papers, seen =>
    if r.published_year < start_year then
      fetchLoop start_year rest papers seen
    else if r.arxivId ∈ seen then
      fetchLoop start_year rest papers seen
    else
      fetchLoop start_year rest (papers ++ [mkPaper r]) (r.arxivId :: seen)

/-- `fetch_papers_by_category(category, start_year)`, with the client's
result stream made explicit.  The `category` argument only selects the
stream (and feeds log lines), so the model takes the stream directly. -/
def fetch_papers_by_category (start_year : Int)
    (stream : List (Except String ArxivResult)) : List Paper :=
  fetchLoop start_year stream [] []

/-- The inner `for paper in category_papers` loop of `fetch_arxiv_papers`:
papers are appended to `all_papers` unless their `arxiv_id` is in
`seen_ids`. -/
def addPapers : List Paper → List Paper × List String → List Paper × List String
  | [], st => st
  | p :: rest, (acc, seen) =>
    if p.arxiv_id ∈ seen then addPapers rest (acc, seen)
    else addPapers rest (acc ++ [p], p.arxiv_id :: seen)

/-- The outer `for category in categories` loop of `fetch_arxiv_papers`:
`seen_ids` carries across categories. -/
def fetchAllLoop : List (List Paper) → List Paper × List String → List Paper × List String
  | [], st => st
  | cr :: rest, st => fetchAllLoop rest (addPapers cr st)

/-- `fetch_arxiv_papers`, with the per-category results (the return values
of the `fetch_papers_by_category` calls, in category order) made explicit. -/
def fetch_arxiv_papers (categoryResults : List (List Paper)) : List Paper :=
  (fetchAllLoop categoryResults ([], [])).1

/-! Lemmas about the fetch loops. -/

theorem fetchLoop_stops_at_error (y : Int) (e : String) :
    ∀ (pre post : List (Except String ArxivResult)) (papers : List Paper)
      (seen : List String),
    fetchLoop y (pre ++ Except.error e :: post) papers seen = fetchLoop y pre papers seen := by
  intro pre
  induction pre with
  | nil => intro post papers seen; rfl
  | cons x rest ih =>
    intro post papers seen
    cases x with
    | error msg => rfl
    | ok r =>
      simp only [List.cons_append, fetchLoop]
      by_cases hy : r.published_year < y
      · simp only [if_pos hy]; exact ih post papers seen
      · simp only [if_neg hy]
        by_cases hs : r.arxivId ∈ seen
        · simp only [if_pos hs]; exact ih post papers seen
        · simp only [if_neg hs]; exact ih post _ _

theorem fetchLoop_mem (y : Int) :
    ∀ (stream : List (Except String ArxivResult)) (papers : List Paper)
      (seen : List String) (p : Paper), p ∈ fetchLoop y stream papers seen →
    p ∈ papers ∨ ∃ r, Except.ok r ∈ stream ∧ p = mkPaper r ∧ y ≤ r.published_year := by
  intro stream
  induction stream with
  | nil => intro papers seen p hp; exact Or.inl hp
  | cons x rest ih =>
    intro papers seen p hp
    cases x with
    | error msg => exact Or.inl hp
    | ok r =>
      simp only [fetchLoop] at hp
      by_cases hy : r.published_year < y
      · rw [if_pos hy] at hp
        rcases ih papers seen p hp with h | ⟨r', hr', hpr', hyy'⟩
        · exact Or.inl h
        · exact Or.inr ⟨r', List.mem_cons_of_mem _ hr', hpr', hyy'⟩
      · rw [if_neg hy] at hp
        by_cases hs : r.arxivId ∈ seen
        · rw [if_pos hs] at hp
          rcases ih papers seen p hp with h | ⟨r', hr', hpr', hyy'⟩
          · exact Or.inl h
          · exact Or.inr ⟨r', List.mem_cons_of_mem _ hr', hpr', hyy'⟩
        · rw [if_neg hs] at hp
          rcases ih _ _ p hp with h | ⟨r', hr', hpr', hyy'⟩
          · rcases List.mem_append.mp h with h' | h'
            · exact Or.inl h'
            · rcases List.mem_singleton.mp h' with rfl
              exact Or.inr ⟨r, List.mem_cons_self _ _, rfl, not_lt.mp hy⟩
          · exact Or.inr ⟨r', List.mem_cons_of_mem _ hr', hpr', hyy'⟩

theorem addPapers_append (l1 l2 : List Paper) :
    ∀ st, addPapers (l1 ++ l2) st = addPapers l2 (addPapers l1 st) := by
  induction l1 with
  | nil => intro st; rfl
  | cons p rest ih =>
    intro ⟨acc, seen⟩
    simp only [List.cons_append, addPapers]
    by_cases hs : p.arxiv_id ∈ seen
    · simp only [if_pos hs]; exact ih _
    · simp only [if_neg hs]; exact ih _

theorem fetchAllLoop_eq_join (crs : List (List Paper)) :
    ∀ st, fetchAllLoop crs st = addPapers crs.flatten st := by
  induction crs with
  | nil => intro st; rfl
  | cons cr rest ih =>
    intro st
    simp only [fetchAllLoop, List.flatten_cons, addPapers_append]
    exact ih _

theorem addPapers_nodup :
    ∀ (l acc : List Paper) (seen : List String),
    (∀ id, id ∈ seen ↔ id ∈ acc.map Paper.arxiv_id) →
    (acc.map Paper.arxiv_id).Nodup →
    ((addPapers l (acc, seen)).1.map Paper.arxiv_id).Nodup := by
  intro l
  induction l with
  | nil => intro acc seen _ hnd; exact hnd
  | cons p rest ih =>
    intro acc seen hiff hnd
    simp only [addPapers]
    by_cases hs : p.arxiv_id ∈ seen
    · rw [if_pos hs]; exact ih acc seen hiff hnd
    · rw [if_neg hs]
      refine ih (acc ++ [p]) (p.arxiv_id :: seen) ?_ ?_
      · intro id
        simp only [List.mem_cons, List.map_append, List.map_cons, List.map_nil,
          List.mem_append, List.mem_singleton, hiff id]
        tauto
      · have hpn : p.arxiv_id ∉ acc.map Paper.arxiv_id := fun h => hs ((hiff _).mpr h)
        simp only [List.map_append, List.map_cons, List.map_nil]
        exact List.Nodup.append hnd (List.nodup_singleton _)
          (List.disjoint_singleton.mpr hpn)

theorem addPapers_ids_toFinset :
    ∀ (l acc : List Paper) (seen : List String),
    (∀ id, id ∈ seen ↔ id ∈ acc.map Paper.arxiv_id) →
    ((addPapers l (acc, seen)).1.map Paper.arxiv_id).toFinset =
      (acc.map Paper.arxiv_id).toFinset ∪ (l.map Paper.arxiv_id).toFinset := by
  intro l
  induction l with
  | nil =>
    intro acc seen _
    simp [addPapers]
  | cons p rest ih =>
    intro acc seen hiff
    simp only [addPapers]
    by_cases hs : p.arxiv_id ∈ seen
    · rw [if_pos hs, ih acc seen hiff]
      have hpm : p.arxiv_id ∈ (acc.map Paper.arxiv_id).toFinset :=
        List.mem_toFinset.mpr ((hiff _).mp hs)
      simp only [List.map_cons, List.toFinset_cons]
      rw [Finset.union_insert, Finset.insert_eq_self.mpr (Finset.mem_union_left _ hpm)]
    · rw [if_neg hs]
      rw [ih (acc ++ [p]) (p.arxiv_id :: seen) ?_]
      · simp only [List.map_append, List.map_cons, List.map_nil, List.toFinset_append,
          List.toFinset_cons, List.toFinset_nil, List.mem_toFinset]
        ext x
        simp only [Finset.mem_union, Finset.mem_insert, Finset.mem_singleton,
          Finset.insert_union, Finset.union_insert, Finset.not_mem_empty,
          Finset.mem_insert]
        tauto
      · intro id
        simp only [List.mem_cons, List.map_append, List.map_cons, List.map_nil,
          List.mem_append, List.mem_singleton, hiff id]
        tauto

theorem addPapers_first_occurrence :
    ∀ (l acc : List Paper) (seen : List String) (p : Paper),
    p ∈ (addPapers l (acc, seen)).1 →
    p ∈ acc ∨ ∃ l1 l2, l = l1 ++ p :: l2 ∧ p.arxiv_id ∉ seen ∧
      ∀ q ∈ l1, q.arxiv_id ≠ p.arxiv_id := by
  intro l
  induction l with
  | nil => intro acc seen p hp; exact Or.inl hp
  | cons p' rest ih =>
    intro acc seen p hp
    simp only [addPapers] at hp
    by_cases hs : p'.arxiv_id ∈ seen
    · rw [if_pos hs] at hp
      rcases ih acc seen p hp with h | ⟨l1, l2, hsplit, hns, hfst⟩
      · exact Or.inl h
      · refine Or.inr ⟨p' :: l1, l2, by rw [hsplit]; rfl, hns, ?_⟩
        intro q hq
        rcases List.mem_cons.mp hq with rfl | hq'
        · intro he; exact hns (he ▸ hs)
        · exact hfst q hq'
    · rw [if_neg hs] at hp
      rcases ih (acc ++ [p']) (p'.arxiv_id :: seen) p hp with h | ⟨l1, l2, hsplit, hns, hfst⟩
      · rcases List.mem_append.mp h with h' | h'
        · exact Or.inl h'
        · rcases List.mem_singleton.mp h' with rfl
          exact Or.inr ⟨[], rest, rfl, hs, by intro q hq; cases hq⟩
      · have hns' : p.arxiv_id ∉ seen := fun h => hns (List.mem_cons_of_mem _ h)
        have hne : p'.arxiv_id ≠ p.arxiv_id := fun he =>
          hns (he ▸ List.mem_cons_self _ _)
        refine Or.inr ⟨p' :: l1, l2, by rw [hsplit]; rfl, hns', ?_⟩
        intro q hq
        rcases List.mem_cons.mp hq with rfl | hq'
        · exact hne
        · exact hfst q hq'

/-! Concrete sample data, used by witnesses. -/

def exResult1 : ArxivResult :=
  { entry_id := "http://arxiv.org/abs/2301.00001"
    title := "Test Paper"
    summary := some "An abstract"
    abstract := none
    authors := ["Ada Lovelace"]
    published_year := 2023
    published_iso := "2023-01-15T00:00:00Z"
    categories := ["cs.AI"]
    primary_category := "cs.AI" }

def exStream : List (Except String ArxivResult) :=
  [Except.ok exResult1, Except.error "unexpected empty page"]

def exPaperA : Paper :=
  { arxiv_id := "1234.5678"
    title := "Test Paper"
    abstract := "Test abstract"
    authors := ["John Doe"]
    published := "2023-01-15T00:00:00Z"
    categories := ["cs.AI"]
    primary_category := "cs.AI" }

def exPaperB : Paper :=
  { exPaperA with arxiv_id := "9876.5432" }

def exCategoryResults : List (List Paper) := [[exPaperA], [exPaperA, exPaperB]]

/-- C10: `fetch_papers_by_category` never propagates an exception raised
while iterating the client's results (modelled as an `Except.error` item
in the stream, covering `UnexpectedEmptyPageError` and any other
exception): it returns exactly the papers collected before the failure
point, and every returned paper comes from a yielded result whose
publication year is at least `start_year`. -/
theorem fetch_papers_by_category_never_raises (y : Int) :
    (∀ (pre post : List (Except String ArxivResult)) (e : String),
      fetch_papers_by_category y (pre ++ Except.error e :: post) =
        fetch_papers_by_category y pre) ∧
    (∀ (stream : List (Except String ArxivResult)) (p : Paper),
      p ∈ fetch_papers_by_category y stream →
      ∃ r, Except.ok r ∈ stream ∧ p = mkPaper r ∧ y ≤ r.published_year) := by
  constructor
  · intro pre post e
    exact fetchLoop_stops_at_error y e pre post [] []
  · intro stream p hp
    rcases fetchLoop_mem y stream [] [] p hp with h | h
    · cases h
    · exact h

/-- Witness for C10 at a concrete stream: one valid 2023 result followed
by a raised exception, with `start_year = 2020`. -/
theorem fetch_papers_by_category_never_raises_w :
    ∃ r, Except.ok r ∈ exStream ∧ mkPaper exResult1 = mkPaper r ∧
      (2020 : Int) ≤ r.published_year :=
  (fetch_papers_by_category_never_raises 2020).2 exStream (mkPaper exResult1) (by decide)

/-- C9: every list returned by `fetch_arxiv_papers` has pairwise-distinct
`arxiv_id` values; each returned paper is the first paper bearing its
`arxiv_id` in the concatenation of the per-category results (category
order); the output length is the number of distinct `arxiv_id`s across
all per-category results. -/
theorem fetch_arxiv_papers_dedup (crs : List (List Paper)) :
    ((fetch_arxiv_papers crs).map Paper.arxiv_id).Nodup ∧
    (∀ p ∈ fetch_arxiv_papers crs, ∃ l1 l2, crs.flatten = l1 ++ p :: l2 ∧
      ∀ q ∈ l1, q.arxiv_id ≠ p.arxiv_id) ∧
    (fetch_arxiv_papers crs).length =
      (crs.flatten.map Paper.arxiv_id).toFinset.card := by
  have hiff : ∀ id : String, id ∈ ([] : List String) ↔
      id ∈ (([] : List Paper).map Paper.arxiv_id) := by simp
  refine ⟨?_, ?_, ?_⟩
  · rw [fetch_arxiv_papers, fetchAllLoop_eq_join]
    exact addPapers_nodup crs.flatten [] [] hiff (by simp)
  · intro p hp
    rw [fetch_arxiv_papers, fetchAllLoop_eq_join] at hp
    rcases addPapers_first_occurrence crs.flatten [] [] p hp with h | ⟨l1, l2, hs, _, hf⟩
    · cases h
    · exact ⟨l1, l2, hs, hf⟩
  · have hnd : ((fetch_arxiv_papers crs).map Paper.arxiv_id).Nodup := by
      rw [fetch_arxiv_papers, fetchAllLoop_eq_join]
      exact addPapers_nodup crs.flatten [] [] hiff (by simp)
    have hfin : ((fetch_arxiv_papers crs).map Paper.arxiv_id).toFinset =
        (crs.flatten.map Paper.arxiv_id).toFinset := by
      rw [fetch_arxiv_papers, fetchAllLoop_eq_join,
        addPapers_ids_toFinset crs.flatten [] [] hiff]
      simp
    calc (fetch_arxiv_papers crs).length
        = ((fetch_arxiv_papers crs).map Paper.arxiv_id).length := (List.length_map _ _).symm
      _ = ((fetch_arxiv_papers crs).map Paper.arxiv_id).toFinset.card :=
          (List.toFinset_card_of_nodup hnd).symm
      _ = (crs.flatten.map Paper.arxiv_id).toFinset.card := by rw [hfin]

/-- Witness for C9 at the concrete per-category results of the tests: a
paper returned by both category queries is kept once, at its first
occurrence. -/
theorem fetch_arxiv_papers_dedup_w :
    ∃ l1 l2, exCategoryResults.flatten = l1 ++ exPaperB :: l2 ∧
      ∀ q ∈ l1, q.arxiv_id ≠ exPaperB.arxiv_id :=
  (fetch_arxiv_papers_dedup exCategoryResults).2.1 exPaperB (by decide)

/-! Part 2: `scripts/2_build_profiles.py`.  The implementation file is not
in the repository (only `tests/test_2_build_profiles.py` is), so the
definitions below are modelled from the specification's wording. -/

/-- Python's `str.lower()`: case-fold every character. -/
def caseFold (s : String) : String := String.mk (s.data.map Char.toLower)

/-- Modelled from the spec: the title-set side of the missing
`check_paper_overlap` (§4.2).  A paper is represented by its extractable
title, `none` when the object has no extractable title (such a paper
contributes nothing to its side's title set); titles are case-folded and
collected into a set. -/
def titleSet (papers : List (Option String)) : Finset String :=
  ((papers.filterMap id).map caseFold).toFinset

/-- Modelled from the spec: `check_paper_overlap` of the missing
`scripts/2_build_profiles.py` (§4.2).  Normalize titles (case-fold),
build a set of normalized titles per side, return the Jaccard similarity
`|A ∩ B| / |A ∪ B|`; either side empty returns exactly 0 by policy.
Scores are modelled as rationals: the values at every decision point of
the claims (0, 1, the 0.2 threshold) are exactly representable. -/
def check_paper_overlap (arxiv_papers s2_papers : List (Option String)) : ℚ :=
  let a := titleSet arxiv_papers
  let b := titleSet s2_papers
  if a.card = 0 ∨ b.card = 0 then 0
  else ((a ∩ b).card : ℚ) / ((a ∪ b).card : ℚ)

/-- C1: `check_paper_overlap` equals the Jaccard similarity of the two
case-folded title sets whenever both are non-empty (hence lies in
`[0,1]`, is positive exactly when a normalized title is shared, and is
`1` when the two collections coincide); either side empty gives exactly
`0`. -/
theorem check_paper_overlap_jaccard (A B : List (Option String)) :
    (titleSet A ≠ ∅ → titleSet B ≠ ∅ →
      check_paper_overlap A B =
        ((titleSet A ∩ titleSet B).card : ℚ) / ((titleSet A ∪ titleSet B).card : ℚ) ∧
      0 ≤ check_paper_overlap A B ∧ check_paper_overlap A B ≤ 1 ∧
      (0 < check_paper_overlap A B ↔ (titleSet A ∩ titleSet B).Nonempty)) ∧
    (titleSet A = ∅ ∨ titleSet B = ∅ → check_paper_overlap A B = 0) ∧
    (A = B → titleSet A ≠ ∅ → check_paper_overlap A B = 1) := by
  refine ⟨?_, ?_, ?_⟩
  · intro hA hB
    have hcond : ¬((titleSet A).card = 0 ∨ (titleSet B).card = 0) := by
      rw [Finset.card_eq_zero, Finset.card_eq_zero]
      tauto
    have heq : check_paper_overlap A B =
        ((titleSet A ∩ titleSet B).card : ℚ) / ((titleSet A ∪ titleSet B).card : ℚ) := by
      rw [check_paper_overlap]
      exact if_neg hcond
    have hupos : 0 < (((titleSet A ∪ titleSet B).card : ℚ)) := by
      have : (titleSet A ∪ titleSet B).Nonempty :=
        Finset.Nonempty.inl (Finset.nonempty_iff_ne_empty.mpr hA)
      exact_mod_cast Finset.card_pos.mpr this
    refine ⟨heq, ?_, ?_, ?_⟩
    · rw [heq]
      exact div_nonneg (by positivity) (le_of_lt hupos)
    · rw [heq]
      rw [div_le_one hupos]
      exact_mod_cast Finset.card_le_card
        (le_trans Finset.inter_subset_left Finset.subset_union_left)
    · rw [heq]
      constructor
      · intro hpos
        have : 0 < ((titleSet A ∩ titleSet B).card : ℚ) := by
          by_contra hle
          push_neg at hle
          have : ((titleSet A ∩ titleSet B).card : ℚ) = 0 :=
            le_antisymm hle (by positivity)
          rw [this, zero_div] at hpos
          exact lt_irrefl 0 hpos
        exact Finset.card_pos.mp (by exact_mod_cast this)
      · intro hne
        exact div_pos (by exact_mod_cast Finset.card_pos.mpr hne) hupos
  · intro h
    rw [check_paper_overlap]
    refine if_pos ?_
    rcases h with h | h
    · exact Or.inl (by rw [h]; exact Finset.card_empty)
    · exact Or.inr (by rw [h]; exact Finset.card_empty)
  · rintro rfl hA
    have hcard : 0 < (titleSet A).card :=
      Finset.card_pos.mpr (Finset.nonempty_iff_ne_empty.mpr hA)
    rw [check_paper_overlap]
    rw [if_neg (by simp [Nat.pos_iff_ne_zero.mp hcard])]
    rw [Finset.inter_self, Finset.union_self]
    exact div_self (by exact_mod_cast Nat.pos_iff_ne_zero.mp hcard)

/-- Witness for C1: a collection compared with itself scores exactly 1. -/
theorem check_paper_overlap_jaccard_w :
    check_paper_overlap [some "Paper A"] [some "Paper A"] = 1 :=
  (check_paper_overlap_jaccard [some "Paper A"] [some "Paper A"]).2.2 rfl (by decide)

/-- Modelled from the spec: an external candidate's full record, as
returned by `get(candidate_id)` (§3, §6) for the missing resolver. -/
structure CandidateRecord where
  papers : List (Option String)
  affiliations : List String
  locations : List String
  citation_count : Nat
  paper_count : Nat
  h_index : Nat
deriving DecidableEq

/-- Modelled from the spec: the external bibliographic lookup interface
(§6): `search(name) → list<candidate>` (identifiers in source order) and
`get(candidate_id) → full record`. -/
structure BiblioSource where
  search : String → List Nat
  get : Nat → CandidateRecord

/-- Modelled from the spec: `ResolutionResult` (§3), the record cached and
returned by the missing resolver. -/
structure ResolutionResult where
  affiliations : List String
  locations : List String
  citation_count : Nat
  verified : Bool
  overlap_ratio : ℚ
deriving DecidableEq

/-- The fixed verification threshold (§4.3 step 5): 0.2. -/
def VERIFICATION_THRESHOLD : ℚ := 1/5

/-- Modelled from the spec: steps 2–7 of the missing
`fetch_author_info_from_semantic_scholar` (§4.3), after a cache miss.
Zero candidates → `none`; otherwise take the first candidate, fetch its
record, score the overlap, set `verified = overlap_ratio >= 0.2`, report
the ratio as 0 when unverified, and populate
affiliations/locations/citation_count regardless of verification. -/
def resolveUncached (db : BiblioSource) (name : String)
    (crawled : List (Option String)) : Option ResolutionResult :=
  match db.search name with
  | [] => none
  | c :: _ =>
    let record := db.get c
    let ratio := check_paper_overlap crawled record.papers
    let verified : Bool := decide (VERIFICATION_THRESHOLD ≤ ratio)
    some { affiliations := record.affiliations
           locations := record.locations
           citation_count := record.citation_count
           verified := verified
           overlap_ratio := if verified then ratio else 0 }

/-- The raw overlap ratio the resolver computes against the first
candidate (0 when there is no candidate). -/
def computedRatio (db : BiblioSource) (name : String)
    (crawled : List (Option String)) : ℚ :=
  match db.search name with
  | [] => 0
  | c :: _ => check_paper_overlap crawled (db.get c).papers

theorem resolveUncached_verification (db : BiblioSource) (name : String)
    (crawled : List (Option String)) (r : ResolutionResult)
    (h : resolveUncached db name crawled = some r) :
    (r.verified = true ↔ VERIFICATION_THRESHOLD ≤ computedRatio db name crawled) ∧
    (r.verified = false → r.overlap_ratio = 0) ∧
    (r.verified = true → r.overlap_ratio = computedRatio db name crawled) := by
  rw [resolveUncached] at h
  cases hs : db.search name with
  | nil => rw [hs] at h; cases h
  | cons c cs =>
    rw [hs] at h
    have hr : r =
        { affiliations := (db.get c).affiliations
          locations := (db.get c).locations
          citation_count := (db.get c).citation_count
          verified := decide (VERIFICATION_THRESHOLD ≤ check_paper_overlap crawled (db.get c).papers)
          overlap_ratio := if decide (VERIFICATION_THRESHOLD ≤ check_paper_overlap crawled (db.get c).papers)
            then check_paper_overlap crawled (db.get c).papers else 0 } := by
      exact (Option.some_inj.mp h).symm
    have hcr : computedRatio db name crawled =
        check_paper_overlap crawled (db.get c).papers := by
      rw [computedRatio, hs]
    subst hr
    refine ⟨?_, ?_, ?_⟩
    · rw [hcr]
      exact decide_eq_true_iff
    · intro hv
      simp only at hv ⊢
      rw [hv]
      simp
    · intro hv
      simp only at hv ⊢
      rw [hv, hcr]
      simp

/-- Modelled from the spec: the resolver's per-run cache (§4.3 step 1,
§9), as an explicit object owned by the resolver: a mapping from author
name to the cached resolution (possibly `null` from a prior failed
resolution), together with the number of external `search` calls issued
so far in the run. -/
structure ResolverState where
  cache : List (String × Option ResolutionResult)
  search_calls : Nat
deriving DecidableEq

/-- Modelled from the spec: `fetch_author_info_from_semantic_scholar`
(§4.3) with its cache: look the name up first and on a hit return the
cached result without any external call (even a cached `null`); on a miss
resolve externally — one `search` call — then cache and return. -/
def fetch_author_info_from_semantic_scholar (db : BiblioSource) (name : String)
    (crawled : List (Option String)) (st : ResolverState) :
    Option ResolutionResult × ResolverState :=
  match st.cache.lookup name with
  | some r => (r, st)
  | none =>
    let r := resolveUncached db name crawled
    (r, { cache := (name, r) :: st.cache, search_calls := st.search_calls + 1 })

/-- C2: every `ResolutionResult` that
`fetch_author_info_from_semantic_scholar` produces (resolving a name the
cache has not seen) has `verified` true iff the computed overlap ratio is
at least 0.2; when unverified the reported `overlap_ratio` is 0 (the
sub-threshold ratio is suppressed), and when verified the reported
`overlap_ratio` is the raw computed ratio. -/
theorem resolver_verification (db : BiblioSource) (name : String)
    (crawled : List (Option String)) (st : ResolverState) (r : ResolutionResult)
    (hmiss : st.cache.lookup name = none)
    (h : (fetch_author_info_from_semantic_scholar db name crawled st).1 = some r) :
    (r.verified = true ↔ VERIFICATION_THRESHOLD ≤ computedRatio db name crawled) ∧
    (r.verified = false → r.overlap_ratio = 0) ∧
    (r.verified = true → r.overlap_ratio = computedRatio db name crawled) := by
  rw [fetch_author_info_from_semantic_scholar, hmiss] at h
  exact resolveUncached_verification db name crawled r h

/-- C3: from a state that has not seen `name`, two successive resolutions
of `name` issue exactly one external `search` call: the second call
returns the first call's (possibly `null`) result and leaves the state
untouched, and the call counter has advanced by exactly one over both
calls. -/
theorem resolver_cache_single_search (db : BiblioSource) (name : String)
    (crawled crawled' : List (Option String)) (st : ResolverState)
    (hmiss : st.cache.lookup name = none) :
    (fetch_author_info_from_semantic_scholar db name crawled'
        (fetch_author_info_from_semantic_scholar db name crawled st).2).1 =
      (fetch_author_info_from_semantic_scholar db name crawled st).1 ∧
    (fetch_author_info_from_semantic_scholar db name crawled'
        (fetch_author_info_from_semantic_scholar db name crawled st).2).2 =
      (fetch_author_info_from_semantic_scholar db name crawled st).2 ∧
    (fetch_author_info_from_semantic_scholar db name crawled st).2.search_calls =
      st.search_calls + 1 := by
  have hfirst : fetch_author_info_from_semantic_scholar db name crawled st =
      (resolveUncached db name crawled,
        { cache := (name, resolveUncached db name crawled) :: st.cache,
          search_calls := st.search_calls + 1 }) := by
    rw [fetch_author_info_from_semantic_scholar, hmiss]
  rw [hfirst]
  simp [fetch_author_info_from_semantic_scholar, List.lookup, beq_self_eq_true]

/-- A collection with at least one extractable title scores exactly 1
against itself. -/
theorem check_paper_overlap_self (A : List (Option String)) (h : titleSet A ≠ ∅) :
    check_paper_overlap A A = 1 := by
  have hcard : (titleSet A).card ≠ 0 := fun hc => h (Finset.card_eq_zero.mp hc)
  rw [check_paper_overlap]
  rw [if_neg (by tauto)]
  rw [Finset.inter_self, Finset.union_self]
  exact div_self (by exact_mod_cast hcard)

/-- Sample external candidate record for the witnesses. -/
def exCandidate : CandidateRecord :=
  { papers := [some "Paper A"]
    affiliations := ["MIT"]
    locations := ["USA"]
    citation_count := 100
    paper_count := 20
    h_index := 10 }

/-- Sample external source: one candidate for every name. -/
def exDb : BiblioSource :=
  { search := fun _ => [12345]
    get := fun _ => exCandidate }

def exCrawled : List (Option String) := [some "Paper A"]

def exResolution : ResolutionResult :=
  { affiliations := ["MIT"]
    locations := ["USA"]
    citation_count := 100
    verified := true
    overlap_ratio := 1 }

theorem exDb_resolves : resolveUncached exDb "John Doe" exCrawled = some exResolution := by
  have hro : check_paper_overlap exCrawled exCandidate.papers = 1 :=
    check_paper_overlap_self exCrawled (by decide)
  have hv : decide (VERIFICATION_THRESHOLD ≤ (1 : ℚ)) = true :=
    decide_eq_true_iff.mpr (by norm_num [VERIFICATION_THRESHOLD])
  simp only [resolveUncached, exDb, hro, hv, if_true]
  rfl

theorem exDb_fetch_resolves :
    (fetch_author_info_from_semantic_scholar exDb "John Doe" exCrawled ⟨[], 0⟩).1 =
      some exResolution := by
  rw [fetch_author_info_from_semantic_scholar]
  exact exDb_resolves

/-- Witness for C2 at a concrete source whose sole candidate claims
exactly the crawled papers: the ratio is 1, hence verified with the
raw ratio reported. -/
theorem resolver_verification_w :
    (exResolution.verified = true ↔
      VERIFICATION_THRESHOLD ≤ computedRatio exDb "John Doe" exCrawled) ∧
    (exResolution.verified = false → exResolution.overlap_ratio = 0) ∧
    (exResolution.verified = true →
      exResolution.overlap_ratio = computedRatio exDb "John Doe" exCrawled) :=
  resolver_verification exDb "John Doe" exCrawled ⟨[], 0⟩ exResolution rfl
    exDb_fetch_resolves

/-- Witness for C3 from the empty cache: the second resolution returns
the first result and state, and exactly one search call was issued. -/
theorem resolver_cache_single_search_w :
    (fetch_author_info_from_semantic_scholar exDb "John Doe" exCrawled
        (fetch_author_info_from_semantic_scholar exDb "John Doe" exCrawled
          ⟨[], 0⟩).2).1 =
      (fetch_author_info_from_semantic_scholar exDb "John Doe" exCrawled ⟨[], 0⟩).1 ∧
    (fetch_author_info_from_semantic_scholar exDb "John Doe" exCrawled
        (fetch_author_info_from_semantic_scholar exDb "John Doe" exCrawled
          ⟨[], 0⟩).2).2 =
      (fetch_author_info_from_semantic_scholar exDb "John Doe" exCrawled ⟨[], 0⟩).2 ∧
    (fetch_author_info_from_semantic_scholar exDb "John Doe" exCrawled ⟨[], 0⟩).2.search_calls =
      (0 : Nat) + 1 :=
  resolver_cache_single_search exDb "John Doe" exCrawled exCrawled ⟨[], 0⟩ rfl

/-- Modelled from the spec: the paper records consumed by the missing
profile-building stage (§3, §6): title, abstract, author-name strings
(absent when the record lacks an authors field), ISO publication
timestamp, and its year (`int(published[:4])`, the parse abstracted). -/
structure ProfilePaper where
  title : String
  abstract : String
  authors : Option (List String)
  published : String
  published_year : Int
deriving DecidableEq

/-- The profile record assembled by the missing
`build_enriched_author_profile`, restricted to its structured fields
(the narrative `profile_text` is produced by the external summarization
call, outside this model). -/
structure AuthorProfile where
  name : String
  paper_count : Nat
  first_year : Int
  last_year : Int
  years_active : Int
  affiliations : List String
  citation_count : Nat
  semantic_scholar_found : Bool
  verified : Bool
  overlap_ratio : ℚ
deriving DecidableEq

/-- Modelled from the spec: the missing `build_enriched_author_profile`
(§4.7, §3): counts and year range from the grouped paper set
(`first_year` the minimum publication year, `last_year` the maximum,
`years_active = last_year - first_year` always, zero for the degraded
empty input), resolver fields defaulting to empty/0/not-found on a
`null` resolution. -/
def build_enriched_author_profile (name : String) (papers : List ProfilePaper)
    (resolution : Option ResolutionResult) : AuthorProfile :=
  let years := papers.map (fun p => p.published_year)
  let first_year := match years with
    | [] => 0
    | y :: ys => ys.foldl min y
  let last_year := match years with
    | [] => 0
    | y :: ys => ys.foldl max y
  { name := name
    paper_count := papers.length
    first_year := first_year
    last_year := last_year
    years_active := last_year - first_year
    affiliations := (resolution.map (fun r => r.affiliations)).getD []
    citation_count := (resolution.map (fun r => r.citation_count)).getD 0
    semantic_scholar_found := resolution.isSome
    verified := (resolution.map (fun r => r.verified)).getD false
    overlap_ratio := (resolution.map (fun r => r.overlap_ratio)).getD 0 }

theorem foldl_min_const (y : Int) : ∀ (l : List Int), (∀ x ∈ l, x = y) → l.foldl min y = y := by
  intro l
  induction l with
  | nil => intro _; rfl
  | cons a as ih =>
    intro h
    have ha : a = y := h a (List.mem_cons_self _ _)
    simp only [List.foldl, ha, min_self]
    exact ih fun x hx => h x (List.mem_cons_of_mem _ hx)

theorem foldl_max_const (y : Int) : ∀ (l : List Int), (∀ x ∈ l, x = y) → l.foldl max y = y := by
  intro l
  induction l with
  | nil => intro _; rfl
  | cons a as ih =>
    intro h
    have ha : a = y := h a (List.mem_cons_self _ _)
    simp only [List.foldl, ha, max_self]
    exact ih fun x hx => h x (List.mem_cons_of_mem _ hx)

/-- C4: every constructed `AuthorProfile` has
`years_active = last_year - first_year`; in particular an author whose
papers all fall in one year has `years_active = 0`. -/
theorem build_profile_years_active (name : String) (papers : List ProfilePaper)
    (resolution : Option ResolutionResult) :
    (build_enriched_author_profile name papers resolution).years_active =
      (build_enriched_author_profile name papers resolution).last_year -
        (build_enriched_author_profile name papers resolution).first_year ∧
    (∀ y : Int, (∀ p ∈ papers, p.published_year = y) →
      (build_enriched_author_profile name papers resolution).years_active = 0) := by
  constructor
  · rfl
  · intro y hy
    cases papers with
    | nil => rfl
    | cons q qs =>
      have hq : q.published_year = y := hy q (List.mem_cons_self _ _)
      have hrest : ∀ x ∈ qs.map (fun p => p.published_year), x = y := by
        intro x hx
        rcases List.mem_map.mp hx with ⟨p, hpmem, rfl⟩
        exact hy p (List.mem_cons_of_mem _ hpmem)
      have hmin : (qs.map (fun p => p.published_year)).foldl min q.published_year = y := by
        rw [hq]; exact foldl_min_const y _ hrest
      have hmax : (qs.map (fun p => p.published_year)).foldl max q.published_year = y := by
        rw [hq]; exact foldl_max_const y _ hrest
      simp only [build_enriched_author_profile, List.map_cons]
      rw [hmin, hmax]
      exact sub_self y

def exProfilePaper : ProfilePaper :=
  { title := "Single Paper"
    abstract := "some research"
    authors := some ["John Doe"]
    published := "2023-01-01T00:00:00Z"
    published_year := 2023 }

/-- Witness for C4: a single-year author has `years_active = 0`. -/
theorem build_profile_years_active_w :
    (build_enriched_author_profile "John Doe" [exProfilePaper] none).years_active = 0 :=
  (build_profile_years_active "John Doe" [exProfilePaper] none).2 2023 (by decide)

/-- The fixed career-stage enumeration (§4.5). -/
inductive CareerStage where
  | phd_student
  | postdoc
  | early_career
  | mid_career
  | senior
deriving DecidableEq

/-- Seniority rank of a stage: the enumeration order of §4.5. -/
def CareerStage.rank : CareerStage → Nat
  | .phd_student => 0
  | .postdoc => 1
  | .early_career => 2
  | .mid_career => 3
  | .senior => 4

/-- `CareerStageInfo` (§3): stage, rationale prose, temporal marker. -/
structure CareerStageInfo where
  stage : CareerStage
  description : String
  temporal : String
deriving DecidableEq

/-- Modelled from the spec: the base paper-count/years-active band of the
missing `infer_career_stage` (§4.5), with closed-open boundaries chosen
to agree with every data point fixed by §8 and the test suite. -/
def baseStage (paper_count years_active : Nat) : CareerStage :=
  if 100 ≤ paper_count ∨ 15 < years_active then .senior
  else if 10 < years_active then .mid_career
  else if 5 < years_active then .early_career
  else if 3 < years_active then .postdoc
  else .phd_student

/-- Modelled from the spec: the upgrade-only citation override of the
missing `infer_career_stage` (§4.5): the citation count imposes a floor
stage, promoting but never demoting. -/
def citationFloor (citation_count : Nat) : CareerStage :=
  if 10000 ≤ citation_count then .mid_career
  else if 1000 ≤ citation_count then .early_career
  else .phd_student

/-- The more senior of two stages. -/
def stageMax (a b : CareerStage) : CareerStage :=
  if a.rank ≤ b.rank then b else a

def stageDescription : CareerStage → String
  | .phd_student => "PhD student or junior researcher"
  | .postdoc => "postdoctoral researcher"
  | .early_career => "early-career researcher"
  | .mid_career => "mid-career researcher"
  | .senior => "senior researcher"

/-- Modelled from the spec: the missing `infer_career_stage` (§4.5): a
pure function of its three numeric inputs with no hidden state; the band
from paper count and years active, the citation override applied
upgrade-only, a rationale mentioning "significant research impact" when
the override fired, and a temporal marker derived from years active. -/
def infer_career_stage (paper_count years_active citation_count : Nat) : CareerStageInfo :=
  let base := baseStage paper_count years_active
  let cfloor := citationFloor citation_count
  let stage := stageMax base cfloor
  { stage := stage
    description := stageDescription stage ++
      (if base.rank < cfloor.rank then ", with significant research impact" else "")
    temporal := if years_active ≤ 1 then "very recent entrant to the field"
      else "established presence in the field" }

theorem rank_stageMax (a b : CareerStage) :
    (stageMax a b).rank = max a.rank b.rank := by
  rw [stageMax]
  split_ifs with h
  · exact (Nat.max_eq_right h).symm
  · exact (Nat.max_eq_left (Nat.le_of_lt (Nat.lt_of_not_le h))).symm

theorem citationFloor_monotone (c1 c2 : Nat) (h : c1 ≤ c2) :
    (citationFloor c1).rank ≤ (citationFloor c2).rank := by
  rw [citationFloor, citationFloor]
  split_ifs <;> simp_all [CareerStage.rank] <;> omega

/-- C5: `infer_career_stage` is a pure function of its three inputs whose
stage is monotone non-decreasing in `citation_count` with the other two
inputs fixed (the citation override only promotes); and the three fixed
data points evaluate as specified. -/
theorem infer_career_stage_citation_monotone :
    (∀ p y c1 c2, c1 ≤ c2 →
      ((infer_career_stage p y c1).stage).rank ≤ ((infer_career_stage p y c2).stage).rank) ∧
    (infer_career_stage 6 3 1500).stage = .early_career ∧
    (infer_career_stage 500 30 50000).stage = .senior ∧
    (infer_career_stage 1 1 0).stage = .phd_student := by
  refine ⟨?_, by decide, by decide, by decide⟩
  intro p y c1 c2 h
  simp only [infer_career_stage, rank_stageMax]
  exact max_le_max (le_refl _) (citationFloor_monotone c1 c2 h)

/-- Witness for C5: raising citations from 0 to 1500 cannot lower the
stage. -/
theorem infer_career_stage_citation_monotone_w :
    ((infer_career_stage 6 3 0).stage).rank ≤ ((infer_career_stage 6 3 1500).stage).rank :=
  infer_career_stage_citation_monotone.1 6 3 0 1500 (by decide)

/-- Whether the first character list is a prefix of the second. -/
def listStartsWith : List Char → List Char → Bool
  | [], _ => true
  | _ :: _, [] => false
  | c :: cs, d :: ds => c = d && listStartsWith cs ds

/-- Whether `needle` occurs contiguously inside the second list. -/
def listContainsSub (needle : List Char) : List Char → Bool
  | [] => needle.isEmpty
  | c :: rest => listStartsWith needle (c :: rest) || listContainsSub needle rest

/-- Python's `needle in hay` substring test, over character lists. -/
def strContains (hay needle : String) : Bool :=
  listContainsSub needle.data hay.data

/-- Modelled from the spec: one nationality label's rule row (§4.4, §9):
the label with its keyword lists for the three evidence channels
(name pattern, affiliation keyword, location keyword), matched
case-insensitively. -/
structure NationalityProfile where
  label : String
  name_keywords : List String
  affiliation_keywords : List String
  location_keywords : List String
deriving DecidableEq

/-- Channel weights (§4.4), in hundredths so they stay in `ℕ`: name
pattern 0.30, affiliation keyword 0.40, location keyword 0.35 (within the
specified 0.3–0.4), inclusion threshold 0.50. -/
def NAME_WEIGHT : Nat := 30

def AFFILIATION_WEIGHT : Nat := 40

def LOCATION_WEIGHT : Nat := 35

def INCLUSION_THRESHOLD : Nat := 50

/-- Name-pattern channel: evidence when a naming-convention keyword
occurs in the case-folded name. -/
def nameEvidence (np : NationalityProfile) (name : String) : List String :=
  if np.name_keywords.any (fun k => strContains (caseFold name) k) then
    ["name pattern suggests " ++ np.label]
  else []

/-- Affiliation channel: one evidence string per matching affiliation. -/
def affiliationEvidence (np : NationalityProfile) (affiliations : List String) : List String :=
  (affiliations.filter
      (fun a => np.affiliation_keywords.any (fun k => strContains (caseFold a) k))).map
    (fun a => "affiliated with " ++ a)

/-- Location channel: one evidence string per matching location. -/
def locationEvidence (np : NationalityProfile) (locations : List String) : List String :=
  (locations.filter
      (fun l => np.location_keywords.any (fun k => strContains (caseFold l) k))).map
    (fun l => "located in " ++ l)

/-- The accumulated weight for a label: each channel with evidence
contributes its weight once. -/
def labelWeight (np : NationalityProfile) (name : String)
    (affiliations locations : List String) : Nat :=
  (if nameEvidence np name ≠ [] then NAME_WEIGHT else 0) +
  (if affiliationEvidence np affiliations ≠ [] then AFFILIATION_WEIGHT else 0) +
  (if locationEvidence np locations ≠ [] then LOCATION_WEIGHT else 0)

def vietnamProfile : NationalityProfile :=
  { label := "vietnam"
    name_keywords := ["nguyen", "tran", "pham", "hoang", "vu"]
    affiliation_keywords := ["vinai", "vietnam national university", "vnu", "fpt"]
    location_keywords := ["hanoi", "ho chi minh", "vietnam", "da nang"] }

def chineseProfile : NationalityProfile :=
  { label := "chinese"
    name_keywords := ["zhang", "wang", "chen", "liu", "zhao"]
    affiliation_keywords := ["tsinghua", "peking university", "fudan", "zhejiang"]
    location_keywords := ["beijing", "shanghai", "china"] }

def nationalityProfiles : List NationalityProfile := [vietnamProfile, chineseProfile]

/-- Modelled from the spec: the missing `infer_nationality_signals`
(§4.4): evaluate the three evidence channels per label over the rule
table, and include a label in the output mapping exactly when its
accumulated weight reaches the inclusion threshold, with the matching
channels' evidence strings. -/
def infer_nationality_signals (name : String)
    (affiliations locations : List String) : List (String × List String) :=
  nationalityProfiles.filterMap (fun np =>
    if INCLUSION_THRESHOLD ≤ labelWeight np name affiliations locations then
      some (np.label,
        nameEvidence np name ++ affiliationEvidence np affiliations ++
          locationEvidence np locations)
    else none)

/-- C6: a label appears in the output only when its accumulated channel
weight reaches the 0.5 threshold; a name-pattern match alone (0.3, no
affiliation or location channel match) never qualifies a label; and when
all three channels match, the label is present with at least two evidence
strings. -/
theorem infer_nationality_signals_threshold :
    (∀ (name : String) (affiliations locations : List String) (lab : String)
        (ev : List String), (lab, ev) ∈ infer_nationality_signals name affiliations locations →
      ∃ np ∈ nationalityProfiles, np.label = lab ∧
        INCLUSION_THRESHOLD ≤ labelWeight np name affiliations locations) ∧
    (∀ (name : String) (affiliations locations : List String) (lab : String),
      (∀ np ∈ nationalityProfiles, np.label = lab →
        affiliationEvidence np affiliations = [] ∧ locationEvidence np locations = []) →
      ∀ ev, (lab, ev) ∉ infer_nationality_signals name affiliations locations) ∧
    (∀ (name : String) (affiliations locations : List String)
        (np : NationalityProfile), np ∈ nationalityProfiles →
      nameEvidence np name ≠ [] → affiliationEvidence np affiliations ≠ [] →
      locationEvidence np locations ≠ [] →
      ∃ ev, (np.label, ev) ∈ infer_nationality_signals name affiliations locations ∧
        2 ≤ ev.length) := by
  have hmem : ∀ (name : String) (affiliations locations : List String) (lab : String)
      (ev : List String), (lab, ev) ∈ infer_nationality_signals name affiliations locations →
      ∃ np ∈ nationalityProfiles, np.label = lab ∧
        INCLUSION_THRESHOLD ≤ labelWeight np name affiliations locations := by
    intro name affiliations locations lab ev hmem
    rcases List.mem_filterMap.mp hmem with ⟨np, hnp, hf⟩
    by_cases hc : INCLUSION_THRESHOLD ≤ labelWeight np name affiliations locations
    · rw [if_pos hc] at hf
      exact ⟨np, hnp, (Prod.mk.injEq _ _ _ _ ▸ Option.some_inj.mp hf).1, hc⟩
    · rw [if_neg hc] at hf
      cases hf
  refine ⟨hmem, ?_, ?_⟩
  · intro name affiliations locations lab hch ev hin
    rcases hmem name affiliations locations lab ev hin with ⟨np, hnp, hlab, hw⟩
    rcases hch np hnp hlab with ⟨ha, hl⟩
    rw [labelWeight, ha, hl] at hw
    simp only [ne_eq, not_true_eq_false, if_false, add_zero] at hw
    revert hw
    split_ifs <;> simp [NAME_WEIGHT, INCLUSION_THRESHOLD]
  · intro name affiliations locations np hnp hn ha hl
    refine ⟨nameEvidence np name ++ affiliationEvidence np affiliations ++
      locationEvidence np locations, ?_, ?_⟩
    · refine List.mem_filterMap.mpr ⟨np, hnp, ?_⟩
      rw [if_pos ?_]
      rw [labelWeight, if_pos hn, if_pos ha, if_pos hl]
      simp [NAME_WEIGHT, AFFILIATION_WEIGHT, LOCATION_WEIGHT, INCLUSION_THRESHOLD]
    · have h1 : 1 ≤ (nameEvidence np name).length :=
        Nat.succ_le_of_lt (List.length_pos.mpr hn)
      have h2 : 1 ≤ (affiliationEvidence np affiliations).length :=
        Nat.succ_le_of_lt (List.length_pos.mpr ha)
      simp only [List.length_append]
      omega

/-- Witness for C6: name pattern, institution and location all matching
for the same label yields that label with at least two evidence
strings. -/
theorem infer_nationality_signals_threshold_w :
    ∃ ev, (vietnamProfile.label, ev) ∈
        infer_nationality_signals "Nguyen Van A" ["VinAI Research"] ["Hanoi, Vietnam"] ∧
      2 ≤ ev.length :=
  infer_nationality_signals_threshold.2.2 "Nguyen Van A" ["VinAI Research"]
    ["Hanoi, Vietnam"] vietnamProfile (by decide) (by decide) (by decide) (by decide)

/-- A value of the research-evolution result mapping: a focus list of
topic tokens, or a boolean flag. -/
inductive EvoValue where
  | focus (topics : List String)
  | flag (b : Bool)
deriving DecidableEq

/-- The controlled topic vocabulary of the keyword extraction (§4.6). -/
def topicVocabulary : List String :=
  ["language", "nlp", "transformer", "vision", "image", "learning",
   "detection", "segmentation", "graph", "reinforcement"]

/-- Representative topic tokens of a window: the vocabulary keywords
present in some paper's case-folded title+abstract text. -/
def topicsOf (papers : List ProfilePaper) : List String :=
  topicVocabulary.filter
    (fun k => papers.any
      (fun p => strContains (caseFold (p.title ++ " " ++ p.abstract)) k))

/-- Modelled from the spec: the missing `extract_research_evolution`
(§4.6): sort by publication date (ISO-8601 strings order
chronologically), split into the oldest and the newest window (a single
paper is both windows, duplicating the focus), extract topic tokens per
window, and flag `transition` when the two topic sets diverge and
`consistent` when they remain similar.  The result is the returned
mapping, with both focus keys always present. -/
def extract_research_evolution (papers : List ProfilePaper) : List (String × EvoValue) :=
  let sorted := List.insertionSort (fun a b => a.published ≤ b.published) papers
  let n := sorted.length
  let early := sorted.take (max 1 (n / 2))
  let recent := sorted.drop (n / 2)
  let early_focus := topicsOf early
  let recent_focus := topicsOf recent
  let consistent : Bool :=
    (early_focus.isEmpty && recent_focus.isEmpty) ||
      !(early_focus.inter recent_focus).isEmpty
  [("early_focus", EvoValue.focus early_focus),
   ("recent_focus", EvoValue.focus recent_focus),
   if consistent then ("consistent", EvoValue.flag true)
   else ("transition", EvoValue.flag true)]

/-- C7: `extract_research_evolution` is total (a Lean function, so it
never raises) and for every input — empty and singleton lists included —
its result mapping contains both the `early_focus` and the
`recent_focus` key. -/
theorem extract_research_evolution_total_keys (papers : List ProfilePaper) :
    "early_focus" ∈ (extract_research_evolution papers).map Prod.fst ∧
    "recent_focus" ∈ (extract_research_evolution papers).map Prod.fst := by
  constructor <;> simp [extract_research_evolution]

/-! The grouping stage (`group_papers_by_author`). -/

/-- Appending a paper to one author's group, creating the group on first
sight of the name (the `defaultdict(list)` behaviour). -/
def addTo : List (String × List ProfilePaper) → String → ProfilePaper →
    List (String × List ProfilePaper)
  | [], a, p => [(a, [p])]
  | (b, ps) :: rest, a, p =>
    if b = a then (b, ps ++ [p]) :: rest else (b, ps) :: addTo rest a p

/-- Adding one paper under each of its author names. -/
def addAll (groups : List (String × List ProfilePaper)) (authors : List String)
    (p : ProfilePaper) : List (String × List ProfilePaper) :=
  authors.foldl (fun g a => addTo g a p) groups

/-- Modelled from the spec: the loop of the missing
`group_papers_by_author` (§4.1): papers lacking an authors field are
skipped without raising; a paper with N co-authors joins all N groups. -/
def groupLoop : List ProfilePaper → List (String × List ProfilePaper) →
    List (String × List ProfilePaper)
  | [], acc => acc
  | p :: rest, acc =>
    groupLoop rest (match p.authors with
      | none => acc
      | some authors => addAll acc authors p)

/-- Modelled from the spec: the missing `group_papers_by_author` (§4.1). -/
def group_papers_by_author (papers : List ProfilePaper) :
    List (String × List ProfilePaper) :=
  groupLoop papers []

/-- Membership of a paper in the group of an author name. -/
def memGroup (x : String) (p : ProfilePaper)
    (groups : List (String × List ProfilePaper)) : Prop :=
  ∃ l, groups.lookup x = some l ∧ p ∈ l

theorem memGroup_addTo (a : String) (q : ProfilePaper) (x : String) (p : ProfilePaper) :
    ∀ groups, memGroup x p (addTo groups a q) ↔ memGroup x p groups ∨ (p = q ∧ x = a) := by
  intro groups
  induction groups with
  | nil =>
    by_cases hxa : x = a
    · have hbeq : (x == a) = true := beq_iff_eq.mpr hxa
      simp [addTo, memGroup, List.lookup, hbeq, hxa]
    · have hbeq : (x == a) = false := beq_false_of_ne hxa
      simp [addTo, memGroup, List.lookup, hbeq, hxa]
  | cons e rest ih =>
    obtain ⟨b, ps⟩ := e
    rw [addTo]
    by_cases hba : b = a
    · rw [if_pos hba]
      by_cases hxb : x = b
      · have hbeq : (x == b) = true := beq_iff_eq.mpr hxb
        have hxa : x = a := hba ▸ hxb
        simp only [memGroup, List.lookup, hbeq]
        simp [List.mem_append, hxa]
      · have hbeq : (x == b) = false := beq_false_of_ne hxb
        have hxa : x ≠ a := fun h => hxb (h.trans hba.symm)
        simp [memGroup, List.lookup, hbeq, hxa]
    · rw [if_neg hba]
      by_cases hxb : x = b
      · have hbeq : (x == b) = true := beq_iff_eq.mpr hxb
        have hxa : x ≠ a := fun h => hba (hxb.symm.trans h)
        simp [memGroup, List.lookup, hbeq, hxa]
      · have hbeq : (x == b) = false := beq_false_of_ne hxb
        simp only [memGroup, List.lookup, hbeq]
        exact ih

theorem memGroup_addAll (q : ProfilePaper) (x : String) (p : ProfilePaper) :
    ∀ (authors : List String) (groups : List (String × List ProfilePaper)),
    memGroup x p (addAll groups authors q) ↔
      memGroup x p groups ∨ (p = q ∧ x ∈ authors) := by
  intro authors
  induction authors with
  | nil => intro groups; simp [addAll]
  | cons a as ih =>
    intro groups
    have h1 : addAll groups (a :: as) q = addAll (addTo groups a q) as q := rfl
    rw [h1, ih, memGroup_addTo]
    simp only [List.mem_cons]
    tauto

theorem memGroup_groupLoop (x : String) (p : ProfilePaper) :
    ∀ (papers : List ProfilePaper) (acc : List (String × List ProfilePaper)),
    memGroup x p (groupLoop papers acc) ↔
      memGroup x p acc ∨
        (p ∈ papers ∧ ∃ authors, p.authors = some authors ∧ x ∈ authors) := by
  intro papers
  induction papers with
  | nil => intro acc; simp [groupLoop]
  | cons q rest ih =>
    intro acc
    rw [groupLoop]
    cases hq : q.authors with
    | none =>
      rw [ih]
      constructor
      · rintro (h | ⟨hmem, authors, hpa, hx⟩)
        · exact Or.inl h
        · exact Or.inr ⟨List.mem_cons_of_mem _ hmem, authors, hpa, hx⟩
      · rintro (h | ⟨hmem, authors, hpa, hx⟩)
        · exact Or.inl h
        · rcases List.mem_cons.mp hmem with rfl | hmem'
          · rw [hq] at hpa; cases hpa
          · exact Or.inr ⟨hmem', authors, hpa, hx⟩
    | some as =>
      rw [ih, memGroup_addAll]
      constructor
      · rintro ((h | ⟨rfl, hx⟩) | ⟨hmem, authors, hpa, hxa⟩)
        · exact Or.inl h
        · exact Or.inr ⟨List.mem_cons_self _ _, as, hq, hx⟩
        · exact Or.inr ⟨List.mem_cons_of_mem _ hmem, authors, hpa, hxa⟩
      · rintro (h | ⟨hmem, authors, hpa, hxa⟩)
        · exact Or.inl (Or.inl h)
        · rcases List.mem_cons.mp hmem with rfl | hmem'
          · rw [hq] at hpa
            rcases Option.some_inj.mp hpa with rfl
            exact Or.inl (Or.inr ⟨rfl, hxa⟩)
          · exact Or.inr ⟨hmem', authors, hpa, hxa⟩

theorem groupLoop_skips_authorless :
    ∀ (papers : List ProfilePaper) (acc : List (String × List ProfilePaper)),
    groupLoop papers acc = groupLoop (papers.filter (fun p => p.authors.isSome)) acc := by
  intro papers
  induction papers with
  | nil => intro acc; rfl
  | cons q rest ih =>
    intro acc
    rw [groupLoop]
    cases hq : q.authors with
    | none =>
      have : (q :: rest).filter (fun p => p.authors.isSome) =
          rest.filter (fun p => p.authors.isSome) := by
        simp [List.filter, hq]
      rw [this]
      exact ih acc
    | some as =>
      have : (q :: rest).filter (fun p => p.authors.isSome) =
          q :: rest.filter (fun p => p.authors.isSome) := by
        simp [List.filter, hq]
      rw [this, groupLoop, hq]
      exact ih _

/-- C8: grouping never fails on a paper lacking the authors field — such
papers are skipped and contribute to no group; the empty input yields the
empty mapping; and a paper carrying co-authors appears in the group
sequence of each of its authors. -/
theorem group_papers_by_author_spec :
    group_papers_by_author [] = [] ∧
    (∀ papers : List ProfilePaper, group_papers_by_author papers =
      group_papers_by_author (papers.filter (fun p => p.authors.isSome))) ∧
    (∀ (papers : List ProfilePaper) (p : ProfilePaper) (authors : List String)
        (x : String), p ∈ papers → p.authors = some authors → x ∈ authors →
      memGroup x p (group_papers_by_author papers)) := by
  refine ⟨rfl, ?_, ?_⟩
  · intro papers
    exact groupLoop_skips_authorless papers []
  · intro papers p authors x hmem hpa hx
    rw [group_papers_by_author, memGroup_groupLoop]
    exact Or.inr ⟨hmem, authors, hpa, hx⟩

def exPaperXY : ProfilePaper :=
  { title := "Paper 1"
    abstract := "Abstract 1"
    authors := some ["John Doe", "Jane Smith"]
    published := "2020-01-01T00:00:00Z"
    published_year := 2020 }

/-- Witness for C8: a paper with co-authors appears in the second
author's group. -/
theorem group_papers_by_author_spec_w :
    memGroup "Jane Smith" exPaperXY (group_papers_by_author [exPaperXY]) :=
  group_papers_by_author_spec.2.2 [exPaperXY] exPaperXY ["John Doe", "Jane Smith"]
    "Jane Smith" (by decide) (by decide) (by decide)

end AuthorSearch
